import Mathlib

/-!
Shallow embedding of two InfluxDB operator tools and proofs about them:

* `InfluxTSM` — the `influx_tsm` shard-migration command (discovery of
  shards, per-database backup, per-shard conversion with delete/rename swap).
* `Inspect` — the `influx_inspect`-style dump command (summary table and
  full point dump over read-only transactions).

Filesystem paths are modelled as lists of components; the filesystem is an
association list from paths to nodes.  External collaborators (the legacy
shard readers, the TSM converter, the store's transactions and codecs) are
modelled as environment parameters supplying their observable results.
-/

namespace InfluxTSM

/-- A filesystem path, as a list of components (`filepath.Join` pieces). -/
abbrev FPath := List String

/-- A filesystem node: a directory or a file with contents. -/
inductive FNode
  | dir
  | file (content : String)
deriving DecidableEq, Repr

/-- A filesystem: an association list from paths to nodes. -/
abbrev FS := List (FPath × FNode)

/-- The entries of `fs` that lie at or below path `p` (the subtree of `p`). -/
def restrictFS (fs : FS) (p : FPath) : FS :=
  fs.filter (fun e => decide (p <+: e.1))

/-- Whether a `stat` of path `p` succeeds: an entry with exactly path `p` exists. -/
def statExists (fs : FS) (p : FPath) : Bool :=
  fs.any (fun e => decide (e.1 = p))

/-- Whether any entry exists at or below path `p`. -/
def pathExists (fs : FS) (p : FPath) : Bool :=
  fs.any (fun e => decide (p <+: e.1))

/-- Shard storage formats recognised by the converter (`tsdb.EngineFormat`). -/
inductive Format
  | B1
  | BZ1
  | TSM1
deriving DecidableEq, Repr

/-- Metadata of one discovered shard (`tsdb.ShardInfo`): owning database,
retention policy, shard directory name, legacy format tag and size. -/
structure ShardInfo where
  Database : String
  RetentionPolicy : String
  Path : String
  Format : Format
  Size : Nat
deriving DecidableEq, Repr

/-- The backup suffix constant `backupExt = "bak"`. -/
def backupExt : String := "bak"

/-- Embedding of `strings.HasSuffix` on the characters of the strings. -/
def hasSuffix (s post : String) : Bool :=
  post.data.isSuffixOf s.data

/-- Whether an `Except` result is a success. -/
def exceptOk : Except String Unit → Bool
  | Except.ok _ => true
  | Except.error _ => false

/-- The target-format suffix constant `tsmExt = "tsm"`. -/
def tsmExt : String := "tsm"

/-- The maximum TSM file size constant `maxTSMSz = 1*1024*1024*1024`. -/
def maxTSMSz : Nat := 1 * 1024 * 1024 * 1024

/-- Full path of a shard below the data directory:
`filepath.Join(dataPath, si.Database, si.RetentionPolicy, si.Path)`. -/
def ShardInfo.FullPath (si : ShardInfo) (dataPath : FPath) : FPath :=
  dataPath ++ [si.Database, si.RetentionPolicy, si.Path]

/-- The temporary target path of a conversion:
`fmt.Sprintf("%s.%s", src, tsmExt)`, i.e. the shard path with `.tsm` appended
to its last component. -/
def ShardInfo.tsmPath (si : ShardInfo) (dataPath : FPath) : FPath :=
  dataPath ++ [si.Database, si.RetentionPolicy, si.Path ++ "." ++ tsmExt]

/-- Join a component path back into a display string. -/
def joinFPath (p : FPath) : String :=
  String.intercalate "/" p

/-- The fixed-suffix backup destination for a database directory:
`filepath.Join(src + "." + backupExt)`, i.e. the same path with `.bak`
appended to its last component. -/
def backupDest : FPath → FPath
  | [] => []
  | [x] => [x ++ "." ++ backupExt]
  | x :: y :: rest => x :: backupDest (y :: rest)

/-- Embedding of `copyDir(dest, src)`: every entry at or below `src` is
copied to the corresponding path below `dest` (directory structure and file
contents preserved); nothing is removed from the source. -/
def copyDirFS (fs : FS) (dest src : FPath) : FS :=
  fs ++ (restrictFS fs src).map (fun e => (dest ++ e.1.drop src.length, e.2))

/-- Embedding of `backupDatabase(src)`: compute the fixed-suffix destination;
fail without touching the filesystem if a `stat` of the destination
succeeds; otherwise recursively copy the database directory. -/
def backupDatabase (fs : FS) (src : FPath) : Except String Unit × FS :=
  let dest := backupDest src
  if statExists fs dest then
    (Except.error ("backup of " ++ joinFPath src ++ " already exists"), fs)
  else
    (Except.ok (), copyDirFS fs dest src)

/-- Observable results of the external collaborators used by one run of
`convertShard`: the legacy reader's `Open`/`Close`, the converter's
`Process` together with the target-file writes it performs (paths relative
to the target path), and the results of `os.RemoveAll` and `os.Rename`. -/
structure ConvEnv where
  openRes : Except String Unit
  procRes : Except String Unit
  writes : List (FPath × FNode)
  closeRes : Except String Unit
  removeOk : Bool
  renameOk : Bool

/-- Embedding of `convertShard(si)`: pick a reader by format (unsupported
format is an error), open it, run the converter (which writes the target
files below `dst` whether or not it ultimately succeeds), close the reader,
then delete the original shard directory and rename the target into its
place.  Each fallible sub-step short-circuits with an error. -/
def convertShard (env : ConvEnv) (dataPath : FPath) (si : ShardInfo) (fs : FS) :
    Except String Unit × FS :=
  let src := si.FullPath dataPath
  let dst := si.tsmPath dataPath
  match si.Format with
  | Format.TSM1 => (Except.error "Unsupported shard format", fs)
  | _ =>
    match env.openRes with
    | Except.error e =>
        (Except.error ("Failed to open " ++ joinFPath src ++ " for conversion: " ++ e), fs)
    | Except.ok _ =>
      let fs1 := fs ++ env.writes.map (fun w => (dst ++ w.1, w.2))
      match env.procRes with
      | Except.error e =>
          (Except.error ("Conversion of " ++ joinFPath src ++ " failed: " ++ e), fs1)
      | Except.ok _ =>
        match env.closeRes with
        | Except.error e =>
            (Except.error ("Conversion of " ++ joinFPath src ++ " failed due to close: " ++ e), fs1)
        | Except.ok _ =>
          if env.removeOk then
            let fs2 := fs1.filter (fun e => !(decide (src <+: e.1)))
            if env.renameOk then
              (Except.ok (),
               fs2.map (fun e =>
                 if decide (dst <+: e.1) then (src ++ e.1.drop dst.length, e.2) else e))
            else
              (Except.error ("Rename of " ++ joinFPath dst ++ " failed"), fs2)
          else
            (Except.error ("Deletion of " ++ joinFPath src ++ " failed"), fs1)

/-- Observable events of one run of the migration orchestrator's `main`. -/
inductive Ev
  | skipBackupDir (name : String)
  | nothingToDo
  | backup (db : String) (ok : Bool)
  | convert (db rp path : String) (ok : Bool)
deriving DecidableEq, Repr

/-- Whether an event is a backup step. -/
def isBackupEv : Ev → Bool
  | Ev.backup _ _ => true
  | _ => false

/-- Whether an event is a shard-conversion step. -/
def isConvertEv : Ev → Bool
  | Ev.convert _ _ _ _ => true
  | _ => false

/-- External inputs of one run of `main`: the parsed flags (`-sz`, `-dbs`,
`-parallel`), the directory entries of the data path, the result of
`tsdb.Database.Shards()` per database directory, the operator's y/N answer,
and the success of each backup and each shard conversion. -/
structure MainEnv where
  tsmSz : Nat
  reqDs : List String
  parallel : Bool
  dirEntries : List String
  shardsOf : String → Except String (List ShardInfo)
  proceed : Bool
  backupOk : String → Bool
  convertOk : ShardInfo → Bool

/-- Embedding of the discovery loop of `main`: walk the data-directory
entries in order; an entry whose name has the backup suffix is skipped with
a diagnostic; otherwise its shards are collected, and a failure to list them
aborts the run immediately (entries after the failure are not visited). -/
def discoverDirs : List String → (String → Except String (List ShardInfo)) →
    List Ev × Except String (List ShardInfo)
  | [], _ => ([], Except.ok [])
  | d :: rest, f =>
    if hasSuffix d backupExt then
      let r := discoverDirs rest f
      (Ev.skipBackupDir d :: r.1, r.2)
    else
      match f d with
      | Except.error e => ([], Except.error e)
      | Except.ok shs =>
        let r := discoverDirs rest f
        (r.1, r.2.map (fun l => shs ++ l))

/-- Ordering used by `sort.Sort(tsdb.ShardInfos(shards))`.
Modelled from the spec: tsdb.ShardInfos sorts deterministically by
(database, retention policy, path); the `Less` method is not part of the
sources under study. -/
def shardLe (a b : ShardInfo) : Bool :=
  if a.Database ≠ b.Database then a.Database ≤ b.Database
  else if a.RetentionPolicy ≠ b.RetentionPolicy then a.RetentionPolicy ≤ b.RetentionPolicy
  else a.Path ≤ b.Path

/-- Stable sort of the discovered shards. -/
def sortShards (l : List ShardInfo) : List ShardInfo :=
  l.insertionSort (fun a b => shardLe a b = true)

/-- Modelled from the spec: `tsdb.ShardInfos.FilterFormat` is a pure,
order-preserving filter that removes shards already in the given (target)
format; its body is not part of the sources under study. -/
def FilterFormat (l : List ShardInfo) (fmt : Format) : List ShardInfo :=
  l.filter (fun si => decide (si.Format ≠ fmt))

/-- Modelled from the spec: `tsdb.ShardInfos.FilterDatabases` is a pure,
order-preserving filter keeping shards of the requested databases, an
empty/absent request list meaning all databases; its body is not part of
the sources under study. -/
def FilterDatabases (l : List ShardInfo) (reqDs : List String) : List ShardInfo :=
  if reqDs.isEmpty then l else l.filter (fun si => reqDs.contains si.Database)

/-- Modelled from the spec: `tsdb.ShardInfos.Databases` returns the distinct
databases touched by the shards (each database once); its body is not part
of the sources under study. -/
def databasesOf (l : List ShardInfo) : List String :=
  (l.map ShardInfo.Database).eraseDups

/-- The conversion plan computed by `main` before confirmation: sorted,
filtered by target format and by the requested databases; `none` when
discovery failed. -/
def planOf (env : MainEnv) : Option (List ShardInfo) :=
  match (discoverDirs env.dirEntries env.shardsOf).2 with
  | Except.error _ => none
  | Except.ok shs => some (FilterDatabases (FilterFormat (sortShards shs) Format.TSM1) env.reqDs)

/-- Embedding of the backup loop of `main`: back up each distinct database
in order; the first failure stops the loop (the run exits). -/
def backupPhase : List String → (String → Bool) → List Ev × Bool
  | [], _ => ([], true)
  | db :: rest, ok =>
    if ok db then
      let r := backupPhase rest ok
      (Ev.backup db true :: r.1, r.2)
    else
      ([Ev.backup db false], false)

/-- Embedding of the conversion loop of `main`: convert each planned shard
in order; the first failure stops the loop (the run exits). -/
def convertPhase : List ShardInfo → (ShardInfo → Bool) → List Ev × Bool
  | [], _ => ([], true)
  | si :: rest, ok =>
    if ok si then
      let r := convertPhase rest ok
      (Ev.convert si.Database si.RetentionPolicy si.Path true :: r.1, r.2)
    else
      ([Ev.convert si.Database si.RetentionPolicy si.Path false], false)

/-- Continuation of `main` once the plan is known: exit 0 with a "nothing
to do" report on an empty plan, abort on a negative confirmation, back up
every distinct database, then convert every planned shard in order.
`devs` are the diagnostics already emitted by discovery. -/
def mainRunAfterPlan (env : MainEnv) (devs : List Ev) (shards : List ShardInfo) :
    List Ev × Nat :=
  if shards.isEmpty then (devs ++ [Ev.nothingToDo], 0)
  else if !env.proceed then (devs, 1)
  else
    let bp := backupPhase (databasesOf shards) env.backupOk
    if bp.2 then
      let cp := convertPhase shards env.convertOk
      (devs ++ bp.1 ++ cp.1, if cp.2 then 0 else 1)
    else
      (devs ++ bp.1, 1)

/-- Embedding of `main` as an event trace plus exit code: check the `-sz`
bound, discover and filter shards, then run the backup and conversion
phases on the resulting plan. -/
def mainRun (env : MainEnv) : List Ev × Nat :=
  if env.tsmSz > maxTSMSz then ([], 1)
  else
    match discoverDirs env.dirEntries env.shardsOf with
    | (devs, Except.error _) => (devs, 1)
    | (devs, Except.ok shs) =>
        mainRunAfterPlan env devs
          (FilterDatabases (FilterFormat (sortShards shs) Format.TSM1) env.reqDs)

/-- Narrowing of the `-sz` flag to 32 bits, as in `uint32(tsmSz)`. -/
def uint32Narrow (n : Nat) : Nat :=
  n % 2 ^ 32

end InfluxTSM

namespace Inspect

/-- A cursor's content for one series in one shard: the (timestamp key as a
64-bit unsigned value, encoded value blob) pairs it yields from `Seek` to
exhaustion. -/
abbrev Cursor := List (Nat × String)

/-- An external field codec for one measurement: decodes an encoded value
blob into (field name, rendered value or type) pairs, or fails. -/
abbrev Decoder := String → Except String (List (String × String))

/-- Read-only schema view of one measurement. -/
structure Measurement where
  name : String
  tagKeys : List String
  tagValues : String → List String
  fieldNames : List String
  seriesKeys : List String

/-- Read-only view of the store for one measurement's scan: the shard IDs,
each shard's cursor per series key (`none` when the series is absent from
that shard), and each shard's field codec for the measurement (`none` when
absent). -/
structure StoreEnv where
  shardIDs : List Nat
  cursor : Nat → String → Option Cursor
  codec : Nat → Option Decoder

/-- Ascending sort of shard IDs (`sort.Sort(ShardIDs(shardIDs))`). -/
def sortNats (l : List Nat) : List Nat :=
  l.insertionSort (· ≤ ·)

/-- Lexicographic sort of strings (`sort.Strings`). -/
def sortStrings (l : List String) : List String :=
  l.insertionSort (· ≤ ·)

/-- One row of the summary table. -/
structure Row where
  shard : Nat
  db : String
  measurement : String
  tagKeyN : Nat
  tagValueN : Nat
  fieldN : Nat
  fieldSummary : List String
  seriesN : Nat
deriving DecidableEq, Repr

/-- The `field:type` summary strings computed in summary mode from one
cursor: seek to the first point, decode it with the codec when one exists,
render each decoded field as `name:type` and sort; an absent codec, an
empty cursor or a decode failure all yield the empty summary. -/
def typeSummary (codec : Option Decoder) (c : Cursor) : List String :=
  match codec with
  | none => []
  | some dec =>
    match c.head? with
    | none => []
    | some p =>
      match dec p.2 with
      | Except.error _ => []
      | Except.ok fields => sortStrings (fields.map (fun fv => fv.1 ++ ":" ++ fv.2))

/-- The summary row emitted for shard `id` once a series with a cursor has
been found there, built from the measurement's schema counts and the
first-point field summary of that cursor. -/
def rowFor (codec : Nat → Option Decoder) (db : String) (m : Measurement)
    (id : Nat) (c : Cursor) : Row :=
  { shard := id
    db := db
    measurement := m.name
    tagKeyN := m.tagKeys.length
    tagValueN := (m.tagKeys.map (fun t => (m.tagValues t).length)).sum
    fieldN := m.fieldNames.length
    fieldSummary := typeSummary (codec id) c
    seriesN := m.seriesKeys.length }

/-- Embedding of the inner series loop of summary mode for one shard: scan
the (sorted) series keys in order; a key whose cursor is absent in this
shard is skipped; the first key with a cursor produces the shard's row and
the loop breaks. -/
def firstRow (cursor : Nat → String → Option Cursor) (codec : Nat → Option Decoder)
    (db : String) (m : Measurement) (id : Nat) : List String → Option Row
  | [] => none
  | k :: rest =>
    match cursor id k with
    | none => firstRow cursor codec db m id rest
    | some c => some (rowFor codec db m id c)

/-- Embedding of summary mode for one measurement: for each shard ID in
ascending order, run the inner series loop and collect the row it emits,
if any. -/
def summaryRows (env : StoreEnv) (db : String) (m : Measurement) : List Row :=
  (sortNats env.shardIDs).filterMap
    (fun id => firstRow env.cursor env.codec db m id (sortStrings m.seriesKeys))

/-- The summary sampling procedure as the specification words it, for
refinement comparison with `summaryRows`: for each series key in
lexicographic order, scan shard IDs in ascending order until one shard has
a cursor for that key, and emit one row from that shard and cursor. -/
def summaryRowsSpec (env : StoreEnv) (db : String) (m : Measurement) : List Row :=
  (sortStrings m.seriesKeys).filterMap (fun k =>
    ((sortNats env.shardIDs).find? (fun id => (env.cursor id k).isSome)).map
      (fun id => rowFor env.codec db m id ((env.cursor id k).getD [])))

/-- One output line of the full dump: series key, comma-joined
`field=value` pairs, and the emitted (signed 64-bit) timestamp. -/
structure OutLine where
  key : String
  fieldsJoined : String
  ts : Int
deriving DecidableEq, Repr

/-- Reinterpretation of a 64-bit unsigned timestamp key as a signed 64-bit
integer, as in `int64(btou64(ts))`. -/
def toInt64 (n : Nat) : Int :=
  if n < 2 ^ 63 then (n : Int) else (n : Int) - 2 ^ 64

/-- The comma-joined `field=value` rendering of one decoded point; a decode
failure leaves the field list empty. -/
def decodeFieldsJoined (dec : Decoder) (v : String) : String :=
  match dec v with
  | Except.error _ => ""
  | Except.ok fields => String.intercalate "," (fields.map (fun fv => fv.1 ++ "=" ++ fv.2))

/-- The output line emitted for one point of one series. -/
def mkLine (dec : Decoder) (key : String) (p : Nat × String) : OutLine :=
  { key := key, fieldsJoined := decodeFieldsJoined dec p.2, ts := toInt64 p.1 }

/-- Embedding of the point loop of full-dump mode: advance the cursor from
`Seek` until it yields no value, emitting one line per point in cursor
order. -/
def dumpLoop (dec : Decoder) (key : String) : Cursor → List OutLine
  | [] => []
  | p :: rest => mkLine dec key p :: dumpLoop dec key rest

/-- Embedding of full-dump mode for one series in one shard: when the
measurement has a codec in this shard, run the point loop over the series'
cursor; without a codec the cursor is never advanced and nothing is
emitted. -/
def dumpSeries (codec : Option Decoder) (key : String) (c : Cursor) : List OutLine :=
  match codec with
  | none => []
  | some dec => dumpLoop dec key c

/-- Transaction-level events observable against the store. -/
inductive TxEv
  | openRO (shard : Nat)
  | openRW (shard : Nat)
  | commit (shard : Nat)
  | rollback (shard : Nat)
deriving DecidableEq, Repr

/-- The transaction trace of one per-measurement shard scan: for each shard
in order, a read-only transaction is opened and, after the series loop,
rolled back. -/
def txTraceOf : List Nat → List TxEv
  | [] => []
  | id :: rest => TxEv.openRO id :: TxEv.rollback id :: txTraceOf rest

/-- The transaction trace of summary mode's scan of one measurement. -/
def summaryTxTrace (env : StoreEnv) : List TxEv :=
  txTraceOf (sortNats env.shardIDs)

/-- The transaction trace of full-dump mode's scan of one measurement. -/
def dumpTxTrace (shardIDs : List Nat) : List TxEv :=
  txTraceOf (sortNats shardIDs)

end Inspect

namespace InfluxTSM

/-- A concrete legacy-format shard used as a witness input. -/
def shardA : ShardInfo :=
  { Database := "db1", RetentionPolicy := "default", Path := "1"
    Format := Format.B1, Size := 100 }

/-- A concrete run environment whose plan contains `shardA` and whose
backup and conversion steps all succeed. -/
def envConv : MainEnv :=
  { tsmSz := maxTSMSz
    reqDs := []
    parallel := false
    dirEntries := ["db1"]
    shardsOf := fun _ => Except.ok [shardA]
    proceed := true
    backupOk := fun _ => true
    convertOk := fun _ => true }

/-- A concrete run environment whose only data directory looks like a
backup, so the plan is empty. -/
def envNoPlan : MainEnv :=
  { envConv with dirEntries := ["mydb.bak"] }

/-- A concrete database directory tree used as a witness input. -/
def fsDemo : FS :=
  [(["data", "mydb"], FNode.dir), (["data", "mydb", "s1"], FNode.file "legacy")]

/-- A concrete shard directory tree used as a witness input for conversion. -/
def fsShard : FS :=
  [(["data", "mydb", "default", "7"], FNode.dir),
   (["data", "mydb", "default", "7", "f"], FNode.file "points")]

/-- The shard stored in `fsShard`. -/
def siShard : ShardInfo :=
  { Database := "mydb", RetentionPolicy := "default", Path := "7"
    Format := Format.BZ1, Size := 10 }

/-- A concrete conversion environment whose converter write fails midway. -/
def convEnvFailProc : ConvEnv :=
  { openRes := Except.ok ()
    procRes := Except.error "disk full"
    writes := [(["0001"], FNode.file "tsm")]
    closeRes := Except.ok ()
    removeOk := true
    renameOk := true }

end InfluxTSM

namespace Inspect

/-- A concrete field codec used as a witness input. -/
def decDemo : Decoder := fun _ => Except.ok [("value", "float64")]

/-- A concrete store with two shards, both holding every series. -/
def envTwo : StoreEnv :=
  { shardIDs := [2, 1], cursor := fun _ _ => some [(1, "v")], codec := fun _ => none }

/-- A concrete one-series measurement. -/
def mOne : Measurement :=
  { name := "m", tagKeys := [], tagValues := fun _ => [], fieldNames := []
    seriesKeys := ["a"] }

/-- A concrete store with a single shard. -/
def envOne : StoreEnv :=
  { shardIDs := [3], cursor := fun _ _ => none, codec := fun _ => none }

end Inspect

namespace InfluxTSM

/-- Every diagnostic event emitted by the discovery loop is a skip of a
backup-suffixed directory. -/
theorem discoverDirs_events_skip (dirs : List String)
    (f : String → Except String (List ShardInfo)) :
    ∀ e ∈ (discoverDirs dirs f).1, ∃ n, e = Ev.skipBackupDir n := by
  induction dirs with
  | nil => intro e he; simp [discoverDirs] at he
  | cons d rest ih =>
    intro e he
    by_cases hb : hasSuffix d backupExt
    · simp only [discoverDirs, hb, if_true, List.mem_cons] at he
      rcases he with he | he
      · exact ⟨d, he⟩
      · exact ih e he
    · simp only [discoverDirs, hb, if_false] at he
      cases hf : f d with
      | error e' => rw [hf] at he; simp at he
      | ok shs => rw [hf] at he; exact ih e he

/-- C7: a run whose discovery and filters yield an empty plan exits with
code 0, reports "nothing to do", and performs no backup and no conversion. -/
theorem nothing_to_do_clean_exit (env : MainEnv) (hsz : env.tsmSz ≤ maxTSMSz)
    (hplan : planOf env = some []) :
    (mainRun env).2 = 0 ∧ Ev.nothingToDo ∈ (mainRun env).1 ∧
      ∀ e ∈ (mainRun env).1, isBackupEv e = false ∧ isConvertEv e = false := by
  have hgt : ¬ env.tsmSz > maxTSMSz := not_lt.mpr hsz
  rcases hd : discoverDirs env.dirEntries env.shardsOf with ⟨devs, r⟩
  cases r with
  | error e =>
    rw [planOf] at hplan
    rw [hd] at hplan
    simp at hplan
  | ok shs =>
    rw [planOf] at hplan
    rw [hd] at hplan
    simp only [Option.some.injEq] at hplan
    have hrun : mainRun env = (devs ++ [Ev.nothingToDo], 0) := by
      rw [mainRun, if_neg hgt, hd]
      show mainRunAfterPlan env devs
        (FilterDatabases (FilterFormat (sortShards shs) Format.TSM1) env.reqDs) = _
      rw [hplan]
      simp [mainRunAfterPlan]
    refine ⟨by rw [hrun], by rw [hrun]; simp, ?_⟩
    intro e he
    rw [hrun] at he
    rcases List.mem_append.1 he with he | he
    · have hskip := discoverDirs_events_skip env.dirEntries env.shardsOf e
      rw [hd] at hskip
      rcases hskip he with ⟨n, rfl⟩
      exact ⟨rfl, rfl⟩
    · simp at he
      subst he
      exact ⟨rfl, rfl⟩

/-- Witness for C7 at a concrete environment whose one directory carries
the backup suffix. -/
theorem nothing_to_do_clean_exit_witness :
    (mainRun envNoPlan).2 = 0 ∧ Ev.nothingToDo ∈ (mainRun envNoPlan).1 ∧
      ∀ e ∈ (mainRun envNoPlan).1, isBackupEv e = false ∧ isConvertEv e = false :=
  nothing_to_do_clean_exit envNoPlan (le_refl _) (by decide)

/-- C10: a `-sz` value above the 1 GiB cap makes the run exit with an error
before discovery (empty trace, exit 1), and any run that reaches a
conversion has `tsmSz ≤ maxTSMSz`, under which the narrowing
`uint32(tsmSz)` preserves the value exactly. -/
theorem tsm_size_bound_respected (env : MainEnv) :
    (env.tsmSz > maxTSMSz → mainRun env = ([], 1)) ∧
    ((∃ e ∈ (mainRun env).1, isConvertEv e = true) →
      env.tsmSz ≤ maxTSMSz ∧ uint32Narrow env.tsmSz = env.tsmSz) := by
  by_cases h : env.tsmSz > maxTSMSz
  · have hrun : mainRun env = ([], 1) := by rw [mainRun, if_pos h]
    refine ⟨fun _ => hrun, ?_⟩
    rintro ⟨e, he, -⟩
    rw [hrun] at he
    simp at he
  · refine ⟨fun hc => absurd hc h, fun _ => ?_⟩
    have hle : env.tsmSz ≤ maxTSMSz := not_lt.1 h
    refine ⟨hle, ?_⟩
    show env.tsmSz % 2 ^ 32 = env.tsmSz
    exact Nat.mod_eq_of_lt (lt_of_le_of_lt hle (by norm_num [maxTSMSz]))

/-- Witness for C10: a concrete oversized run exits immediately, and a
concrete run that converts a shard has its size flag preserved by the
32-bit narrowing. -/
theorem tsm_size_bound_respected_witness :
    mainRun { envConv with tsmSz := maxTSMSz + 1 } = ([], 1) ∧
    (envConv.tsmSz ≤ maxTSMSz ∧ uint32Narrow envConv.tsmSz = envConv.tsmSz) :=
  ⟨(tsm_size_bound_respected { envConv with tsmSz := maxTSMSz + 1 }).1 (by decide),
   (tsm_size_bound_respected envConv).2
     ⟨Ev.convert "db1" "default" "1" true, by decide, rfl⟩⟩

/-- C8 (code observation): `mainRun` is completely independent of the
`parallel` flag — the flag is parsed but never read, so cross-shard
conversion behavior is identical for any two values of the flag. -/
theorem parallel_flag_has_no_effect (env : MainEnv) (b1 b2 : Bool) :
    mainRun { env with parallel := b1 } = mainRun { env with parallel := b2 } := by
  cases env
  rfl

end InfluxTSM

namespace Inspect

/-- The dump point loop emits exactly one line per cursor point, in cursor
order. -/
theorem dumpLoop_eq_map (dec : Decoder) (key : String) (c : Cursor) :
    dumpLoop dec key c = c.map (mkLine dec key) := by
  induction c with
  | nil => rfl
  | cons p rest ih => rw [dumpLoop, List.map_cons, ih]

/-- C4: with a codec present, full-dump mode emits exactly one line per
point returned by the cursor (no drops, no duplicates), every line carries
the series key, the emitted timestamps are exactly the cursor's timestamps
in cursor order, and stored non-decreasing timestamp order is preserved in
the output. -/
theorem dump_emits_every_point (dec : Decoder) (key : String) (c : Cursor) :
    (dumpSeries (some dec) key c).length = c.length ∧
    (dumpSeries (some dec) key c).map OutLine.ts = c.map (fun p => toInt64 p.1) ∧
    (∀ l ∈ dumpSeries (some dec) key c, l.key = key) ∧
    (List.Chain' (· ≤ ·) (c.map (fun p => toInt64 p.1)) →
      List.Chain' (· ≤ ·) ((dumpSeries (some dec) key c).map OutLine.ts)) := by
  have hmap : dumpSeries (some dec) key c = c.map (mkLine dec key) :=
    dumpLoop_eq_map dec key c
  refine ⟨?_, ?_, ?_, ?_⟩
  · rw [hmap, List.length_map]
  · rw [hmap, List.map_map]
    rfl
  · intro l hl
    rw [hmap] at hl
    rcases List.mem_map.1 hl with ⟨p, -, rfl⟩
    rfl
  · intro hc
    rw [hmap, List.map_map]
    exact hc

/-- Witness for C4 at a concrete decoder and two-point cursor. -/
theorem dump_emits_every_point_witness :
    (dumpSeries (some decDemo) "cpu" [(1, "a"), (2, "b")]).length = 2 ∧
    List.Chain' (· ≤ ·)
      ((dumpSeries (some decDemo) "cpu" [(1, "a"), (2, "b")]).map OutLine.ts) := by
  have h := dump_emits_every_point decDemo "cpu" [(1, "a"), (2, "b")]
  exact ⟨h.1, h.2.2.2 (by norm_num [toInt64, List.chain'_cons])⟩

/-- The inner series loop of summary mode returns the row of the
lexicographically first series key that has a cursor in the shard. -/
theorem firstRow_eq_find (cursor : Nat → String → Option Cursor)
    (codec : Nat → Option Decoder) (db : String) (m : Measurement) (id : Nat)
    (keys : List String) :
    firstRow cursor codec db m id keys =
      (keys.find? (fun k => (cursor id k).isSome)).map
        (fun k => rowFor codec db m id ((cursor id k).getD [])) := by
  induction keys with
  | nil => rfl
  | cons k rest ih =>
    cases hc : cursor id k with
    | none =>
      have h1 : firstRow cursor codec db m id (k :: rest) =
          firstRow cursor codec db m id rest := by
        rw [firstRow, hc]
      rw [h1, ih, List.find?_cons_of_neg]
      simp [hc]
    | some c =>
      have h1 : firstRow cursor codec db m id (k :: rest) =
          some (rowFor codec db m id c) := by
        rw [firstRow, hc]
      rw [h1, List.find?_cons_of_pos _ (by simp [hc])]
      simp [hc]

/-- C5 (amended): in summary mode, for each measurement, the engine
iterates shard IDs in ascending order; within each shard it scans series
keys in lexicographic order until one yields a cursor, emits one row for
that shard from that cursor, and moves to the next shard; furthermore the
field summary of a row depends only on the first point of the chosen
cursor. -/
theorem summary_one_row_per_shard (env : StoreEnv) (db : String) (m : Measurement) :
    summaryRows env db m =
      (sortNats env.shardIDs).filterMap (fun id =>
        ((sortStrings m.seriesKeys).find? (fun k => (env.cursor id k).isSome)).map
          (fun k => rowFor env.codec db m id ((env.cursor id k).getD []))) ∧
    (∀ cod (c c' : Cursor), c.head? = c'.head? →
      typeSummary cod c = typeSummary cod c') := by
  constructor
  · show List.filterMap _ _ = _
    exact congrArg (fun f => List.filterMap f (sortNats env.shardIDs))
      (funext fun id =>
        firstRow_eq_find env.cursor env.codec db m id (sortStrings m.seriesKeys))
  · intro cod c c' h
    cases cod with
    | none => rfl
    | some dec =>
      unfold typeSummary
      rw [h]

/-- Counterexample to C5 as stated: with two shards that both hold the only
series key, the engine emits one row per shard (two rows), not one row per
series key scanned across shards until the first hit (one row). -/
theorem summary_per_series_claim_false :
    summaryRows envTwo "db" mOne ≠ summaryRowsSpec envTwo "db" mOne := by
  decide

/-- Witness for C5 (amended), exercising the first-point-only property at a
concrete codec and two cursors with equal first points. -/
theorem summary_one_row_per_shard_witness :
    typeSummary (some decDemo) [(1, "x"), (2, "y")] =
      typeSummary (some decDemo) [(1, "x")] :=
  (summary_one_row_per_shard envTwo "db" mOne).2 (some decDemo)
    [(1, "x"), (2, "y")] [(1, "x")] rfl

/-- A per-measurement shard scan never commits and never opens a
read-write transaction. -/
theorem txTraceOf_no_commit (ids : List Nat) (id : Nat) :
    TxEv.commit id ∉ txTraceOf ids ∧ TxEv.openRW id ∉ txTraceOf ids := by
  induction ids with
  | nil => simp [txTraceOf]
  | cons a rest ih => simp [txTraceOf, ih.1, ih.2]

/-- Every read-only transaction opened by a shard scan is matched by
exactly as many rollbacks. -/
theorem txTraceOf_count_balance (ids : List Nat) (id : Nat) :
    (txTraceOf ids).count (TxEv.openRO id) =
      (txTraceOf ids).count (TxEv.rollback id) := by
  induction ids with
  | nil => rfl
  | cons a rest ih =>
    by_cases h : a = id
    · subst h; simp [txTraceOf, List.count_cons, ih]
    · simp [txTraceOf, List.count_cons, ih, h]

/-- Every read-only transaction opened by a shard scan is rolled back
later in the trace. -/
theorem txTraceOf_open_then_rollback (ids : List Nat) :
    ∀ (pre : List TxEv) (id : Nat) (post : List TxEv),
      txTraceOf ids = pre ++ TxEv.openRO id :: post → TxEv.rollback id ∈ post := by
  induction ids with
  | nil =>
    intro pre id post h
    rw [txTraceOf] at h
    cases pre <;> simp at h
  | cons a rest ih =>
    intro pre id post h
    rw [txTraceOf] at h
    cases pre with
    | nil =>
      injection h with h1 h2
      injection h1 with h1
      subst h1
      rw [← h2]
      exact List.mem_cons_self _ _
    | cons x pre' =>
      injection h with h1 h2
      cases pre' with
      | nil =>
        injection h2 with h3 h4
        exact absurd h3 (by simp)
      | cons y pre'' =>
        injection h2 with h3 h4
        exact ih pre'' id post h4

/-- C6: in both summary mode and full-dump mode, every transaction in the
scan trace is opened read-only, none is ever committed, opens and
rollbacks balance, and every opened transaction is rolled back later in
the trace; the scans never mutate the store. -/
theorem inspect_tx_readonly_rolled_back (env : StoreEnv) (shardIDs : List Nat) :
    (∀ id, TxEv.commit id ∉ summaryTxTrace env ∧ TxEv.openRW id ∉ summaryTxTrace env ∧
      (summaryTxTrace env).count (TxEv.openRO id) =
        (summaryTxTrace env).count (TxEv.rollback id)) ∧
    (∀ pre id post, summaryTxTrace env = pre ++ TxEv.openRO id :: post →
      TxEv.rollback id ∈ post) ∧
    (∀ id, TxEv.commit id ∉ dumpTxTrace shardIDs ∧ TxEv.openRW id ∉ dumpTxTrace shardIDs ∧
      (dumpTxTrace shardIDs).count (TxEv.openRO id) =
        (dumpTxTrace shardIDs).count (TxEv.rollback id)) ∧
    (∀ pre id post, dumpTxTrace shardIDs = pre ++ TxEv.openRO id :: post →
      TxEv.rollback id ∈ post) :=
  ⟨fun id => ⟨(txTraceOf_no_commit _ id).1, (txTraceOf_no_commit _ id).2,
      txTraceOf_count_balance _ id⟩,
   fun pre id post h => txTraceOf_open_then_rollback _ pre id post h,
   fun id => ⟨(txTraceOf_no_commit _ id).1, (txTraceOf_no_commit _ id).2,
      txTraceOf_count_balance _ id⟩,
   fun pre id post h => txTraceOf_open_then_rollback _ pre id post h⟩

/-- Witness for C6 at a concrete one-shard store: the opened read-only
transaction is rolled back. -/
theorem inspect_tx_readonly_rolled_back_witness :
    TxEv.rollback 3 ∈ [TxEv.rollback 3] :=
  (inspect_tx_readonly_rolled_back envOne [3]).2.1 [] 3 [TxEv.rollback 3] rfl

end Inspect

namespace InfluxTSM

/-- A path whose exact entry exists also has an entry at or below it. -/
theorem statExists_imp_pathExists (fs : FS) (p : FPath)
    (h : statExists fs p = true) : pathExists fs p = true := by
  simp only [statExists, List.any_eq_true, decide_eq_true_eq] at h
  rcases h with ⟨e, he, hp⟩
  simp only [pathExists, List.any_eq_true, decide_eq_true_eq]
  exact ⟨e, he, hp ▸ List.prefix_refl _⟩

/-- Restriction to a subtree distributes over filesystem append. -/
theorem restrictFS_append (fs gs : FS) (p : FPath) :
    restrictFS (fs ++ gs) p = restrictFS fs p ++ restrictFS gs p :=
  List.filter_append _ _

/-- A subtree with no entries restricts to the empty filesystem. -/
theorem restrictFS_eq_nil (fs : FS) (p : FPath) (h : pathExists fs p = false) :
    restrictFS fs p = [] := by
  rw [restrictFS, List.filter_eq_nil_iff]
  intro e he
  simp only [decide_eq_true_eq]
  intro hp
  have : pathExists fs p = true := by
    simp only [pathExists, List.any_eq_true, decide_eq_true_eq]
    exact ⟨e, he, hp⟩
  rw [h] at this
  cases this

/-- A nonempty path is never a path-prefix of its backup destination (nor
of anything below it): the last components differ. -/
theorem src_not_prefix_of_backupDest (src : FPath) (h : src ≠ []) (t : List String) :
    ¬ (src <+: backupDest src ++ t) := by
  induction src with
  | nil => exact absurd rfl h
  | cons x rest ih =>
    cases rest with
    | nil =>
      intro hp
      rw [backupDest, List.singleton_append, List.cons_prefix_cons] at hp
      obtain ⟨he, -⟩ := hp
      have hlen := congrArg String.length he
      rw [String.length_append, String.length_append] at hlen
      have h1 : ("." : String).length = 1 := rfl
      have h2 : backupExt.length = 3 := rfl
      omega
    | cons y rest' =>
      intro hp
      rw [backupDest, List.cons_append, List.cons_prefix_cons] at hp
      exact ih (by simp) hp.2

/-- C3: backing up a database directory that has no backup yet succeeds and
creates exactly the fixed-suffix copy of the source tree, leaving the
source subtree untouched; backing the same path up again fails with an
already-exists error and leaves the filesystem (in particular the on-disk
backup) unchanged. -/
theorem backup_twice_second_fails (fs : FS) (src : FPath)
    (hsrc : (src, FNode.dir) ∈ fs) (hne : src ≠ [])
    (hnb : pathExists fs (backupDest src) = false) :
    (backupDatabase fs src).1 = Except.ok () ∧
    (backupDatabase fs src).2 = fs ++ (restrictFS fs src).map
        (fun e => (backupDest src ++ e.1.drop src.length, e.2)) ∧
    statExists (backupDatabase fs src).2 (backupDest src) = true ∧
    restrictFS (backupDatabase fs src).2 (backupDest src) =
      (restrictFS fs src).map
        (fun e => (backupDest src ++ e.1.drop src.length, e.2)) ∧
    restrictFS (backupDatabase fs src).2 src = restrictFS fs src ∧
    (backupDatabase (backupDatabase fs src).2 src).1 =
      Except.error ("backup of " ++ joinFPath src ++ " already exists") ∧
    (backupDatabase (backupDatabase fs src).2 src).2 = (backupDatabase fs src).2 := by
  have hstat : statExists fs (backupDest src) = false := by
    cases hs : statExists fs (backupDest src) with
    | false => rfl
    | true => rw [statExists_imp_pathExists fs _ hs] at hnb; cases hnb
  have hfirst : backupDatabase fs src =
      (Except.ok (), copyDirFS fs (backupDest src) src) := by
    rw [backupDatabase]
    simp [hstat]
  have hcopies : (backupDatabase fs src).2 = fs ++ (restrictFS fs src).map
      (fun e => (backupDest src ++ e.1.drop src.length, e.2)) := by
    rw [hfirst]
    rfl
  have hmem : ((backupDest src : FPath), FNode.dir) ∈ (restrictFS fs src).map
      (fun e => (backupDest src ++ e.1.drop src.length, e.2)) := by
    have h1 : ((src : FPath), FNode.dir) ∈ restrictFS fs src := by
      rw [restrictFS, List.mem_filter]
      exact ⟨hsrc, by simp⟩
    rw [List.mem_map]
    refine ⟨(src, FNode.dir), h1, ?_⟩
    simp [List.drop_length]
  have hstat2 : statExists (backupDatabase fs src).2 (backupDest src) = true := by
    rw [hcopies]
    simp only [statExists, List.any_eq_true, decide_eq_true_eq]
    exact ⟨(backupDest src, FNode.dir), List.mem_append.2 (Or.inr hmem), rfl⟩
  refine ⟨by rw [hfirst], hcopies, hstat2, ?_, ?_, ?_, ?_⟩
  · rw [hcopies, restrictFS_append, restrictFS_eq_nil fs _ hnb, List.nil_append,
      restrictFS, List.filter_eq_self]
    intro e he
    rcases List.mem_map.1 he with ⟨a, -, rfl⟩
    simp only [decide_eq_true_eq]
    exact List.prefix_append _ _
  · rw [hcopies, restrictFS_append]
    have : restrictFS ((restrictFS fs src).map
        (fun e => (backupDest src ++ e.1.drop src.length, e.2))) src = [] := by
      rw [restrictFS, List.filter_eq_nil_iff]
      intro e he
      rcases List.mem_map.1 he with ⟨a, -, rfl⟩
      simp only [decide_eq_true_eq]
      exact src_not_prefix_of_backupDest src hne _
    rw [this, List.append_nil]
  · rw [backupDatabase]
    simp [hstat2]
  · rw [backupDatabase]
    simp [hstat2]

/-- Witness for C3 at a concrete database directory tree. -/
theorem backup_twice_second_fails_witness :
    (backupDatabase fsDemo ["data", "mydb"]).1 = Except.ok () ∧
    statExists (backupDatabase fsDemo ["data", "mydb"]).2
      (backupDest ["data", "mydb"]) = true ∧
    (backupDatabase (backupDatabase fsDemo ["data", "mydb"]).2 ["data", "mydb"]).2 =
      (backupDatabase fsDemo ["data", "mydb"]).2 := by
  have h := backup_twice_second_fails fsDemo ["data", "mydb"]
    (by decide) (by decide) (by decide)
  exact ⟨h.1, h.2.2.1, h.2.2.2.2.2.2⟩

/-- A shard's path is never a path-prefix of its conversion target (nor of
anything below it): the last components differ by the `.tsm` suffix. -/
theorem fullPath_not_le_tsmPath (dataPath : FPath) (si : ShardInfo) (t : List String) :
    ¬ (si.FullPath dataPath <+: si.tsmPath dataPath ++ t) := by
  induction dataPath with
  | nil =>
    intro hp
    simp only [ShardInfo.FullPath, ShardInfo.tsmPath, List.nil_append] at hp
    rw [List.cons_append, List.cons_prefix_cons] at hp
    obtain ⟨-, hp⟩ := hp
    rw [List.cons_append, List.cons_prefix_cons] at hp
    obtain ⟨-, hp⟩ := hp
    rw [List.cons_append, List.cons_prefix_cons] at hp
    obtain ⟨he, -⟩ := hp
    have hlen := congrArg String.length he
    rw [String.length_append, String.length_append] at hlen
    have h1 : ("." : String).length = 1 := rfl
    have h2 : tsmExt.length = 3 := rfl
    omega
  | cons x rest ih =>
    intro hp
    simp only [ShardInfo.FullPath, ShardInfo.tsmPath] at hp ih
    rw [List.cons_append, List.cons_append, List.cons_append,
      List.cons_prefix_cons] at hp
    exact ih hp.2

/-- C1: if any sub-step of `convertShard` before the delete step fails
(unsupported format, reader open, converter write, reader close), the call
returns an error, the shard's original directory subtree is unchanged, and
nothing has been deleted or renamed — the result extends the original
filesystem by converter target writes only. -/
theorem convertShard_preserves_original_on_failure (env : ConvEnv) (dataPath : FPath)
    (si : ShardInfo) (fs : FS)
    (h : si.Format = Format.TSM1 ∨ exceptOk env.openRes = false ∨
         exceptOk env.procRes = false ∨ exceptOk env.closeRes = false) :
    exceptOk (convertShard env dataPath si fs).1 = false ∧
    restrictFS (convertShard env dataPath si fs).2 (si.FullPath dataPath) =
      restrictFS fs (si.FullPath dataPath) ∧
    (∃ w, (convertShard env dataPath si fs).2 = fs ++ w) := by
  obtain ⟨db, rp, pth, fmt, sz⟩ := si
  obtain ⟨oRes, pRes, wr, cRes, rm, rn⟩ := env
  have hdisj : ∀ (L : List (FPath × FNode)),
      restrictFS (L.map (fun w =>
        ((ShardInfo.mk db rp pth fmt sz).tsmPath dataPath ++ w.1, w.2)))
        ((ShardInfo.mk db rp pth fmt sz).FullPath dataPath) = [] := by
    intro L
    rw [restrictFS, List.filter_eq_nil_iff]
    intro e he
    rcases List.mem_map.1 he with ⟨a, -, rfl⟩
    simp only [decide_eq_true_eq]
    exact fullPath_not_le_tsmPath dataPath (ShardInfo.mk db rp pth fmt sz) a.1
  cases fmt
  case TSM1 =>
    refine ⟨rfl, rfl, [], ?_⟩
    simp [convertShard]
  all_goals
    cases oRes with
    | error e => exact ⟨rfl, rfl, [], by simp [convertShard]⟩
    | ok u =>
      cases pRes with
      | error e =>
        refine ⟨rfl, ?_, ?_⟩
        · simp only [convertShard]
          rw [restrictFS_append, hdisj, List.append_nil]
        · exact ⟨_, rfl⟩
      | ok u2 =>
        cases cRes with
        | error e =>
          refine ⟨rfl, ?_, ?_⟩
          · simp only [convertShard]
            rw [restrictFS_append, hdisj, List.append_nil]
          · exact ⟨_, rfl⟩
        | ok u3 =>
          exfalso
          simp [exceptOk] at h

/-- Witness for C1 at a concrete shard tree and a conversion whose
converter write step fails. -/
theorem convertShard_preserves_original_on_failure_witness :
    exceptOk (convertShard convEnvFailProc ["data"] siShard fsShard).1 = false ∧
    restrictFS (convertShard convEnvFailProc ["data"] siShard fsShard).2
      (siShard.FullPath ["data"]) = restrictFS fsShard (siShard.FullPath ["data"]) ∧
    (∃ w, (convertShard convEnvFailProc ["data"] siShard fsShard).2 = fsShard ++ w) :=
  convertShard_preserves_original_on_failure convEnvFailProc ["data"] siShard fsShard
    (Or.inr (Or.inr (Or.inl (by decide))))

/-- Membership in the filtered, sorted plan implies membership in the raw
discovered shard list. -/
theorem plan_mem_sub (shs : List ShardInfo) (reqDs : List String) (si : ShardInfo)
    (h : si ∈ FilterDatabases (FilterFormat (sortShards shs) Format.TSM1) reqDs) :
    si ∈ shs := by
  have h1 : si ∈ FilterFormat (sortShards shs) Format.TSM1 := by
    rw [FilterDatabases] at h
    by_cases hq : reqDs.isEmpty
    · rwa [if_pos hq] at h
    · rw [if_neg hq] at h
      exact (List.mem_filter.1 h).1
  have h2 : si ∈ sortShards shs := (List.mem_filter.1 h1).1
  exact (List.mem_insertionSort _).1 h2

/-- Every shard collected by a successful discovery comes from a directory
without the backup suffix whose shard listing succeeded. -/
theorem discoverDirs_shards_from_nonbackup (dirs : List String)
    (f : String → Except String (List ShardInfo)) :
    ∀ evs shs, discoverDirs dirs f = (evs, Except.ok shs) →
      ∀ si ∈ shs, ∃ d ∈ dirs, hasSuffix d backupExt = false ∧
        ∃ l, f d = Except.ok l ∧ si ∈ l := by
  induction dirs with
  | nil =>
    intro evs shs h si hsi
    rw [discoverDirs] at h
    injection h with h1 h2
    injection h2 with h2
    subst h2
    cases hsi
  | cons d rest ih =>
    intro evs shs h si hsi
    rw [discoverDirs] at h
    by_cases hb : hasSuffix d backupExt = true
    · rw [if_pos hb] at h
      rcases hr : discoverDirs rest f with ⟨evs', r'⟩
      rw [hr] at h
      injection h with h1 h2
      subst h2
      rcases ih evs' shs hr si hsi with ⟨d', hd', hb', l, hl, hsil⟩
      exact ⟨d', List.mem_cons_of_mem _ hd', hb', l, hl, hsil⟩
    · rw [if_neg hb] at h
      cases hf : f d with
      | error e =>
        rw [hf] at h
        injection h with h1 h2
        cases h2
      | ok shs' =>
        rw [hf] at h
        rcases hr : discoverDirs rest f with ⟨evs', r'⟩
        rw [hr] at h
        injection h with h1 h2
        cases r' with
        | error e => cases h2
        | ok l' =>
          simp only [Except.map] at h2
          injection h2 with h2
          subst h2
          rcases List.mem_append.1 hsi with hsi | hsi
          · exact ⟨d, List.mem_cons_self _ _, Bool.not_eq_true _ ▸ hb, shs', hf, hsi⟩
          · rcases ih evs' l' hr si hsi with ⟨d', hd', hb', l, hl, hsil⟩
            exact ⟨d', List.mem_cons_of_mem _ hd', hb', l, hl, hsil⟩

/-- A successful discovery emits a skip diagnostic for every directory
entry carrying the backup suffix. -/
theorem discoverDirs_skip_mem (dirs : List String)
    (f : String → Except String (List ShardInfo)) (name : String)
    (h1 : name ∈ dirs) (h2 : hasSuffix name backupExt = true) :
    ∀ evs shs, discoverDirs dirs f = (evs, Except.ok shs) →
      Ev.skipBackupDir name ∈ evs := by
  induction dirs with
  | nil => cases h1
  | cons d rest ih =>
    intro evs shs h
    rw [discoverDirs] at h
    rcases List.mem_cons.1 h1 with rfl | hmem
    · rw [if_pos h2] at h
      rcases hr : discoverDirs rest f with ⟨evs', r'⟩
      rw [hr] at h
      injection h with hfst hsnd
      rw [← hfst]
      exact List.mem_cons_self _ _
    · by_cases hb : hasSuffix d backupExt = true
      · rw [if_pos hb] at h
        rcases hr : discoverDirs rest f with ⟨evs', r'⟩
        rw [hr] at h
        injection h with hfst hsnd
        subst hsnd
        rw [← hfst]
        exact List.mem_cons_of_mem _ (ih hmem evs' shs hr)
      · rw [if_neg hb] at h
        cases hf : f d with
        | error e =>
          rw [hf] at h
          injection h with hfst hsnd
          cases hsnd
        | ok shs' =>
          rw [hf] at h
          rcases hr : discoverDirs rest f with ⟨evs', r'⟩
          rw [hr] at h
          injection h with hfst hsnd
          cases r' with
          | error e => cases hsnd
          | ok l' =>
            rw [← hfst]
            exact ih hmem evs' l' hr

/-- C9: during discovery, every data-root directory whose name carries the
backup suffix is skipped with a diagnostic rather than an error, and every
shard of the conversion plan comes from a directory without the backup
suffix — a `mydb.bak` directory never contributes a conversion candidate. -/
theorem backup_dirs_never_converted (dirs : List String)
    (f : String → Except String (List ShardInfo)) (reqDs : List String)
    (name : String) (h1 : name ∈ dirs) (h2 : hasSuffix name backupExt = true) :
    ∀ evs shs, discoverDirs dirs f = (evs, Except.ok shs) →
      Ev.skipBackupDir name ∈ evs ∧
      ∀ si ∈ FilterDatabases (FilterFormat (sortShards shs) Format.TSM1) reqDs,
        ∃ d ∈ dirs, hasSuffix d backupExt = false ∧
          ∃ l, f d = Except.ok l ∧ si ∈ l := by
  intro evs shs hd
  refine ⟨discoverDirs_skip_mem dirs f name h1 h2 evs shs hd, ?_⟩
  intro si hsi
  exact discoverDirs_shards_from_nonbackup dirs f evs shs hd si
    (plan_mem_sub shs reqDs si hsi)

/-- Witness for C9: a concrete root containing only `mydb.bak` emits the
skip diagnostic for it. -/
theorem backup_dirs_never_converted_witness :
    Ev.skipBackupDir "mydb.bak" ∈ [Ev.skipBackupDir "mydb.bak"] :=
  (backup_dirs_never_converted ["mydb.bak"] (fun _ => Except.ok [shardA]) []
    "mydb.bak" (by decide) (by decide) [Ev.skipBackupDir "mydb.bak"] [] rfl).1

/-- Splitting an event trace at an event of class `q`: if the first block
contains no `q` event, the split point lies inside the second block. -/
theorem trace_split_lemma (q : Ev → Bool) :
    ∀ (A B t1 t2 : List Ev) (e : Ev), (∀ x ∈ A, q x = false) →
      A ++ B = t1 ++ e :: t2 → q e = true →
      ∃ s, t1 = A ++ s ∧ B = s ++ e :: t2 := by
  intro A
  induction A with
  | nil =>
    intro B t1 t2 e hA h hq
    exact ⟨t1, by simp, by simpa using h⟩
  | cons a A' ih =>
    intro B t1 t2 e hA h hq
    cases t1 with
    | nil =>
      rw [List.nil_append, List.cons_append] at h
      injection h with h1 h2
      subst h1
      rw [hA a (List.mem_cons_self _ _)] at hq
      cases hq
    | cons b t1' =>
      rw [List.cons_append, List.cons_append] at h
      injection h with h1 h2
      subst h1
      rcases ih B t1' t2 e (fun x hx => hA x (List.mem_cons_of_mem _ hx)) h2 hq with
        ⟨s, hs1, hs2⟩
      exact ⟨s, by rw [hs1, List.cons_append], hs2⟩

/-- Every event of the backup phase is a backup event. -/
theorem backupPhase_events (dbs : List String) (okf : String → Bool) :
    ∀ e ∈ (backupPhase dbs okf).1, isBackupEv e = true ∧ isConvertEv e = false := by
  induction dbs with
  | nil => intro e he; simp [backupPhase] at he
  | cons db rest ih =>
    intro e he
    by_cases hdb : okf db = true
    · simp only [backupPhase, hdb, if_true, List.mem_cons] at he
      rcases he with rfl | he
      · exact ⟨rfl, rfl⟩
      · exact ih e he
    · simp [backupPhase, hdb] at he
      subst he
      exact ⟨rfl, rfl⟩

/-- A backup phase that reports success emits exactly one successful backup
event per database, in order. -/
theorem backupPhase_all_ok (dbs : List String) (okf : String → Bool)
    (h : (backupPhase dbs okf).2 = true) :
    (backupPhase dbs okf).1 = dbs.map (fun db => Ev.backup db true) := by
  induction dbs with
  | nil => rfl
  | cons db rest ih =>
    by_cases hdb : okf db = true
    · simp only [backupPhase, hdb, if_true] at h ⊢
      rw [List.map_cons]
      exact congrArg _ (ih h)
    · simp [backupPhase, hdb] at h

/-- Every event of the conversion phase is a conversion event. -/
theorem convertPhase_events (shards : List ShardInfo) (okf : ShardInfo → Bool) :
    ∀ e ∈ (convertPhase shards okf).1, isConvertEv e = true ∧ isBackupEv e = false := by
  induction shards with
  | nil => intro e he; simp [convertPhase] at he
  | cons si rest ih =>
    intro e he
    by_cases hsi : okf si = true
    · simp only [convertPhase, hsi, if_true, List.mem_cons] at he
      rcases he with rfl | he
      · exact ⟨rfl, rfl⟩
      · exact ih e he
    · simp [convertPhase, hsi] at he
      subst he
      exact ⟨rfl, rfl⟩

/-- C2: in every run, every backup of a distinct planned database completes
(successfully) before any shard conversion event, and a failed backup makes
the run exit 1 with no conversion event at all. -/
theorem backups_complete_before_any_convert (env : MainEnv) :
    (∀ t1 e t2, (mainRun env).1 = t1 ++ e :: t2 → isConvertEv e = true →
      (∀ x ∈ e :: t2, isBackupEv x = false) ∧
      (∀ db, Ev.backup db false ∉ (mainRun env).1) ∧
      (∀ shards, planOf env = some shards →
        ∀ db ∈ databasesOf shards, Ev.backup db true ∈ t1)) ∧
    ((∃ db, Ev.backup db false ∈ (mainRun env).1) →
      (mainRun env).2 = 1 ∧ ∀ e ∈ (mainRun env).1, isConvertEv e = false) := by
  by_cases hsz : env.tsmSz > maxTSMSz
  · have hrun : mainRun env = ([], 1) := by rw [mainRun, if_pos hsz]
    constructor
    · intro t1 e t2 hsplit _
      rw [hrun] at hsplit
      cases t1 <;> simp at hsplit
    · rintro ⟨db, hmem⟩
      rw [hrun] at hmem
      simp at hmem
  · rcases hd : discoverDirs env.dirEntries env.shardsOf with ⟨devs, r⟩
    have hdev : ∀ x ∈ devs, isBackupEv x = false ∧ isConvertEv x = false := by
      intro x hx
      have hk := discoverDirs_events_skip env.dirEntries env.shardsOf x
      rw [hd] at hk
      rcases hk hx with ⟨n, rfl⟩
      exact ⟨rfl, rfl⟩
    cases r with
    | error err =>
      have hrun : mainRun env = (devs, 1) := by rw [mainRun, if_neg hsz, hd]
      constructor
      · intro t1 e t2 hsplit hconv
        have he : e ∈ (mainRun env).1 := by
          rw [hsplit]
          exact List.mem_append.2 (Or.inr (List.mem_cons_self _ _))
        rw [hrun] at he
        rw [(hdev e he).2] at hconv
        cases hconv
      · rintro ⟨db, hmem⟩
        rw [hrun] at hmem
        have := (hdev _ hmem).1
        cases this
    | ok shs =>
      have hplanOf : planOf env =
          some (FilterDatabases (FilterFormat (sortShards shs) Format.TSM1) env.reqDs) := by
        rw [planOf, hd]
      have hrun : mainRun env = mainRunAfterPlan env devs
          (FilterDatabases (FilterFormat (sortShards shs) Format.TSM1) env.reqDs) := by
        rw [mainRun, if_neg hsz, hd]
      generalize hplabbrev :
        FilterDatabases (FilterFormat (sortShards shs) Format.TSM1) env.reqDs = planL at hplanOf hrun
      by_cases hempty : planL.isEmpty = true
      · have hrun2 : mainRun env = (devs ++ [Ev.nothingToDo], 0) := by
          rw [hrun, mainRunAfterPlan, if_pos hempty]
        have hcls : ∀ x ∈ (mainRun env).1, isBackupEv x = false ∧ isConvertEv x = false := by
          intro x hx
          rw [hrun2] at hx
          rcases List.mem_append.1 hx with hx | hx
          · exact hdev x hx
          · simp at hx
            subst hx
            exact ⟨rfl, rfl⟩
        constructor
        · intro t1 e t2 hsplit hconv
          have he : e ∈ (mainRun env).1 := by
            rw [hsplit]
            exact List.mem_append.2 (Or.inr (List.mem_cons_self _ _))
          rw [(hcls e he).2] at hconv
          cases hconv
        · rintro ⟨db, hmem⟩
          have := (hcls _ hmem).1
          cases this
      · by_cases hpr : env.proceed = true
        · have hnotpr : (!env.proceed) = false := by rw [hpr]; rfl
          rcases hbp : backupPhase (databasesOf planL) env.backupOk with ⟨bevs, bok⟩
          have hbev : ∀ x ∈ bevs, isBackupEv x = true ∧ isConvertEv x = false := by
            intro x hx
            have hk := backupPhase_events (databasesOf planL) env.backupOk x
            rw [hbp] at hk
            exact hk hx
          cases bok with
          | false =>
            have hrun2 : mainRun env = (devs ++ bevs, 1) := by
              rw [hrun, mainRunAfterPlan, if_neg hempty, if_neg (by simp [hpr])]
              rw [hbp]
              simp
            have hcls : ∀ x ∈ (mainRun env).1, isConvertEv x = false := by
              intro x hx
              rw [hrun2] at hx
              rcases List.mem_append.1 hx with hx | hx
              · exact (hdev x hx).2
              · exact (hbev x hx).2
            constructor
            · intro t1 e t2 hsplit hconv
              have he : e ∈ (mainRun env).1 := by
                rw [hsplit]
                exact List.mem_append.2 (Or.inr (List.mem_cons_self _ _))
              rw [hcls e he] at hconv
              cases hconv
            · intro _
              exact ⟨by rw [hrun2], hcls⟩
          | true =>
            rcases hcp : convertPhase planL env.convertOk with ⟨cevs, cok⟩
            have hcev : ∀ x ∈ cevs, isConvertEv x = true ∧ isBackupEv x = false := by
              intro x hx
              have hk := convertPhase_events planL env.convertOk x
              rw [hcp] at hk
              exact hk hx
            have hbmap : bevs = (databasesOf planL).map (fun db => Ev.backup db true) := by
              have hk := backupPhase_all_ok (databasesOf planL) env.backupOk
              rw [hbp] at hk
              exact hk rfl
            have hrun2 : mainRun env = (devs ++ bevs ++ cevs, if cok then 0 else 1) := by
              rw [hrun, mainRunAfterPlan, if_neg hempty, if_neg (by simp [hpr])]
              rw [hbp]
              simp only []
              rw [hcp]
              simp
            have hnofail : ∀ x ∈ (mainRun env).1, ∀ db, x ≠ Ev.backup db false := by
              intro x hx db
              rw [hrun2] at hx
              rcases List.mem_append.1 hx with hx | hx
              · rcases List.mem_append.1 hx with hx | hx
                · intro hb
                  subst hb
                  exact absurd (hdev _ hx).1 (by simp [isBackupEv])
                · rw [hbmap] at hx
                  rcases List.mem_map.1 hx with ⟨db', -, rfl⟩
                  intro hb
                  cases hb
              · intro hb
                subst hb
                exact absurd (hcev _ hx).1 (by simp [isConvertEv])
            constructor
            · intro t1 e t2 hsplit hconv
              rw [hrun2] at hsplit
              have hAno : ∀ x ∈ devs ++ bevs, isConvertEv x = false := by
                intro x hx
                rcases List.mem_append.1 hx with hx | hx
                · exact (hdev x hx).2
                · exact (hbev x hx).2
              rcases trace_split_lemma isConvertEv (devs ++ bevs) cevs t1 t2 e hAno
                  hsplit hconv with ⟨s, ht1, hB⟩
              refine ⟨?_, ?_, ?_⟩
              · intro x hx
                have hxc : x ∈ cevs := by
                  rw [hB]
                  exact List.mem_append.2 (Or.inr hx)
                exact (hcev x hxc).2
              · intro db hmem
                exact hnofail _ hmem db rfl
              · intro shards hshards db hdb
                rw [hplanOf] at hshards
                injection hshards with hshards
                subst hshards
                have hbm : Ev.backup db true ∈ bevs := by
                  rw [hbmap]
                  exact List.mem_map.2 ⟨db, hdb, rfl⟩
                rw [ht1]
                exact List.mem_append.2
                  (Or.inl (List.mem_append.2 (Or.inr hbm)))
            · rintro ⟨db, hmem⟩
              exact absurd rfl (hnofail _ hmem db)
        · have hnotpr : (!env.proceed) = true := by
            cases hp : env.proceed
            · rfl
            · exact absurd hp hpr
          have hrun2 : mainRun env = (devs, 1) := by
            rw [hrun, mainRunAfterPlan, if_neg hempty, if_pos hnotpr]
          constructor
          · intro t1 e t2 hsplit hconv
            have he : e ∈ (mainRun env).1 := by
              rw [hsplit]
              exact List.mem_append.2 (Or.inr (List.mem_cons_self _ _))
            rw [hrun2] at he
            rw [(hdev e he).2] at hconv
            cases hconv
          · rintro ⟨db, hmem⟩
            rw [hrun2] at hmem
            have := (hdev _ hmem).1
            cases this

/-- Witness for C2 at a concrete one-shard run: the conversion event is
preceded by the successful backup of the shard's database. -/
theorem backups_complete_before_any_convert_witness :
    Ev.backup "db1" true ∈ [Ev.backup "db1" true] :=
  ((backups_complete_before_any_convert envConv).1
    [Ev.backup "db1" true] (Ev.convert "db1" "default" "1" true) []
    (by decide) rfl).2.2 [shardA] (by decide) "db1" (by decide)

end InfluxTSM
